import Mathlib

/-!
# VFO tuning accelerator (src/accelerator.cpp)

A shallow embedding of the encoder interrupt handler `FrequencyISR` and of the
block of `loop()` that turns the encoder counter into a frequency change.

Conventions of the embedding

* `freqCount` is declared `volatile int16_t`; every store to it goes through
  `toInt16` (wrap-around modulo 2^16). `Result` in the handler is declared
  `uint8_t`; the store to it goes through `toUInt8`.
* The declarations of `count`, `freqDir`, `afstp`, `rxFreq`, `lclIncr` and of the
  `bandData` fields are not part of the excerpt. The code divides them with `/`
  to drop low order digits, so they are integers; they are embedded as
  unbounded integers with C division (`Int.tdiv`, rounding toward zero).
* `L` is a floating-point variable (cast on line 122); the declarations of `L`,
  `Racc`, `Rdec`, `MaxL` and `incrFactor` are not part of the excerpt. Their
  values are embedded as rationals, and the operations of lines 122, 123 and 139
  are carried out without rounding. This idealises the machine arithmetic: the
  theorems below concern signs, divisibility, bounds, frame conditions and the
  integer paths, which do not depend on how these operations round. The exact
  values of `L` and `incrFactor` after lines 122, 123 and 139 in the program are
  outside this embedding. The product `count * incrFactor` is stored in the
  integer `afstp` by truncation toward zero.
* Division by zero is undefined in C; the tick returns `none` there.
-/

namespace Accelerator

/-! ## Machine integers -/

/-- Store of an integer value into an `int16_t` object (wrap-around modulo 2^16). -/
def toInt16 (x : Int) : Int := (x + 32768) % 65536 - 32768

/-- Store of an integer value into a `uint8_t` object. -/
def toUInt8 (x : Int) : Int := x % 256

/-- Conversion of a real value to an integer type: the fraction is discarded
(rounding toward zero). -/
def truncToInt (q : ℚ) : Int := if 0 ≤ q then ⌊q⌋ else ⌈q⌉

/-! ## Configuration and state -/

/-- The configuration macros used by the excerpt. `ACCELERATE`, `ACC_FACTOR`
and `V_TH` are defined on lines 14 to 16 (see `sourceConfig`); the others come
from `config.h`, which is not part of the excerpt. -/
structure Config where
  ACCELERATE : Bool
  ACC_FACTOR : Int
  V_TH : Int
  ENCDR_FCTR : Int
  F_REV : Int
  PTT_LINE : Int
  CLAR_FA_RESET : Bool
  Racc : ℚ
  Rdec : ℚ
  MaxL : ℚ
deriving DecidableEq

/-- The entry `bandData[activeBand]` of the band table. -/
structure BandData where
  vfoA : Int
  lowLimit : Int
  topLimit : Int
deriving DecidableEq

/-- The variables read or written by the excerpt. `lclIncr` holds the tuning
step of the active band; `catFA` is the last value handed to `CAT.SetFA`;
`changedDisp` is `changed.Disp`; `band` is `bandData[activeBand]`. -/
structure State where
  freqCount : Int
  encoderDir : Int
  freqPulse : Bool
  xmitStatus : Int
  count : Int
  freqDir : Int
  incrFactor : ℚ
  afstp : Int
  L : ℚ
  rxFreq : Int
  lclIncr : Int
  band : BandData
  changedDisp : Bool
  clarCount : Int
  catFA : Int
deriving DecidableEq

/-- The values of lines 14 to 16, completed by the given `config.h` values. -/
def sourceConfig (encdrFctr fRev pttLine : Int) (clarReset : Bool)
    (racc rdec maxL : ℚ) : Config :=
  { ACCELERATE := true, ACC_FACTOR := 0, V_TH := 2, ENCDR_FCTR := encdrFctr,
    F_REV := fRev, PTT_LINE := pttLine, CLAR_FA_RESET := clarReset,
    Racc := racc, Rdec := rdec, MaxL := maxL }

/-! ## The quadrature decoder (external) -/

/-- Modelled from the spec: the result of the quadrature decoder
`freqEncdr.process ()`, whose library is not part of the excerpt. The spec
gives the three directions and their signed values. -/
inductive Direction where
  | Negative
  | None
  | Positive
deriving DecidableEq

/-- Modelled from the spec: the signed value of a direction (plus or minus one,
zero for no motion), the number `process ()` returns. -/
def Direction.value : Direction → Int
  | Direction.Negative => -1
  | Direction.None => 0
  | Direction.Positive => 1

/-- Modelled from the spec: the constant `DIR_NONE` of the decoder library. -/
def DIR_NONE : Int := 0

/-! ## FrequencyISR (lines 51 to 65) -/

/-- The interrupt handler; `dir` is what `freqEncdr.process ()` returns in this
invocation. -/
def FrequencyISR (cfg : Config) (dir : Direction) (st : State) : State :=
  if cfg.PTT_LINE ≠ 0 ∧ st.xmitStatus ≠ 0 then st
  else
    let Result : Int := toUInt8 dir.value
    if Result = DIR_NONE then st
    else { st with freqPulse := true, freqCount := toInt16 (st.freqCount + Result) }

/-- A sequence of handler invocations, one per decoder result. -/
def runISR (cfg : Config) : List Direction → State → State
  | [], st => st
  | dir :: rest, st => runISR cfg rest (FrequencyISR cfg dir st)

/-! ## The tick (lines 86 to 189) -/

/-- Lines 86 and 87. -/
def clearPulse (st : State) : State :=
  if st.freqPulse then { st with freqPulse := false } else st

/-- Line 96: `count = freqCount / ENCDR_FCTR`. -/
def readCount (cfg : Config) (st : State) : Option State :=
  if cfg.ENCDR_FCTR = 0 then none
  else some { st with count := st.freqCount.tdiv cfg.ENCDR_FCTR }

/-- Line 97: `freqCount %= ENCDR_FCTR`. -/
def keepRemainder (cfg : Config) (st : State) : Option State :=
  if cfg.ENCDR_FCTR = 0 then none
  else some { st with freqCount := toInt16 (st.freqCount.tmod cfg.ENCDR_FCTR) }

/-- Lines 96 and 97 run without an interrupt in between. -/
def drainCounter (cfg : Config) (st : State) : Option State :=
  (readCount cfg st).bind (keepRemainder cfg)

/-- Lines 101 to 107: the direction of the frequency change. -/
def direction (cfg : Config) (count : Int) : Int :=
  let freqDir : Int := if count > 0 then 1 else -1
  if cfg.F_REV = 1 then -freqDir else freqDir

/-- Lines 111 to 126: the new `L` and `incrFactor` for the magnitude `count`. -/
def increment (cfg : Config) (lclIncr count : Int) (L : ℚ) : ℚ × ℚ :=
  let incrFactor : ℚ := ((lclIncr * count : Int) : ℚ)
  if cfg.ACCELERATE = true ∧ count ≥ cfg.V_TH then
    if cfg.ACC_FACTOR ≠ 0 then (L, ((lclIncr * cfg.ACC_FACTOR : Int) : ℚ))
    else
      let L1 : ℚ := L + 1 * (((|count| - cfg.V_TH : Int)) : ℚ)
      (L1, (lclIncr : ℚ) + cfg.Racc * L1 * L1)
  else (L, incrFactor)

/-- Lines 99 to 143: the acceleration step. -/
def accelerate (cfg : Config) (st : State) : Option State :=
  if st.count ≠ 0 then
    let freqDir := direction cfg st.count
    let count := |st.count|
    let p := increment cfg st.lclIncr count st.L
    let afstp := truncToInt ((count : ℚ) * p.2)
    if st.lclIncr = 0 then none
    else
      let afstp := freqDir * (afstp.tdiv st.lclIncr) * st.lclIncr
      let L := if p.1 > cfg.MaxL then cfg.MaxL else p.1
      some { st with freqDir := freqDir, count := count, incrFactor := p.2,
                     afstp := afstp, L := L }
  else
    let L := st.L - cfg.Rdec
    some { st with L := if L < 0 then 0 else L }

/-- Lines 166 to 170: the two range checks against the band edges. -/
def rangeCheck (b : BandData) (rxFreq : Int) : Int :=
  let rxFreq := if rxFreq > b.topLimit then b.topLimit else rxFreq
  if rxFreq < b.lowLimit then b.lowLimit else rxFreq

/-- Lines 145 to 189: the frequency update. -/
def updateFrequency (cfg : Config) (st : State) : Option State :=
  if st.afstp ≠ 0 then
    let rxFreq := st.band.vfoA + st.afstp
    let rxFreq := rangeCheck st.band rxFreq
    if st.lclIncr = 0 then none
    else
      let rxFreq := rxFreq.tdiv st.lclIncr
      let rxFreq := rxFreq * st.lclIncr
      some { st with changedDisp := true, rxFreq := rxFreq,
                     band := { st.band with vfoA := rxFreq }, catFA := rxFreq,
                     afstp := 0,
                     clarCount := if cfg.CLAR_FA_RESET then 0 else st.clarCount }
  else some st

/-- Lines 86 to 143: the counter is drained and turned into the delta `afstp`. -/
def accelerationEngine (cfg : Config) (st : State) : Option State :=
  (drainCounter cfg (clearPulse st)).bind (accelerate cfg)

/-- One pass through the excerpt of `loop()`, without interrupts in between. -/
def tick (cfg : Config) (st : State) : Option State :=
  (accelerationEngine cfg st).bind (updateFrequency cfg)

/-- Lines 166 to 180: the range checks followed by the division by the step
and the multiplication back, as a function of the target `rxFreq`. -/
def writtenFrequency (b : BandData) (lclIncr rxFreq : Int) : Int :=
  (rangeCheck b rxFreq).tdiv lclIncr * lclIncr

/-! ## Interrupts during the loop -/

/-- Lines 96 and 97 with an encoder interrupt between them: the handler runs
after `count` has been read and before the remainder is stored. The excerpt
does not disable interrupts around the two lines. -/
def drainPreempted (cfg : Config) (dir : Direction) (st : State) : Option State :=
  (readCount cfg st).bind (fun s1 => keepRemainder cfg (FrequencyISR cfg dir s1))

/-- One pass through the excerpt of `loop()` with an encoder interrupt between
lines 96 and 97. -/
def tickPreempted (cfg : Config) (dir : Direction) (st : State) : Option State :=
  ((drainPreempted cfg dir (clearPulse st)).bind (accelerate cfg)).bind (updateFrequency cfg)

/-- What happens next: an encoder transition outside the drain, a pass through
the loop, or a pass through the loop that is interrupted inside the drain. -/
inductive Event where
  | transition (dir : Direction)
  | loopPass
  | preemptedPass (dir : Direction)
deriving DecidableEq

/-- The effect of one event. -/
def step (cfg : Config) : Event → State → Option State
  | Event.transition dir, st => some (FrequencyISR cfg dir st)
  | Event.loopPass, st => tick cfg st
  | Event.preemptedPass dir, st => tickPreempted cfg dir st

/-- The effect of a sequence of events. -/
def run (cfg : Config) : List Event → State → Option State
  | [], st => some st
  | e :: es, st => (step cfg e st).bind (run cfg es)

/-! ## Reference definitions taken from the specification -/

/-- The clamp of the specification: `x` limited to the interval from `lo` to `hi`. -/
def clampSpec (x lo hi : Int) : Int := max lo (min x hi)

/-- The quantization of the specification, `(x / s) * s` with the division of C. -/
def floorToMultiple (x s : Int) : Int := x.tdiv s * s

/-! ## Example states -/

/-- A state at rest on a band whose lower edge is not on the 1 kHz grid
(the 60 m allocation, 5351.5 kHz to 5366.5 kHz), tuned to 5352 kHz. -/
def restState : State :=
  { freqCount := 0, encoderDir := 0, freqPulse := false, xmitStatus := 0,
    count := 0, freqDir := 0, incrFactor := 0, afstp := 0, L := 0, rxFreq := 0,
    lclIncr := 1000,
    band := { vfoA := 5352000, lowLimit := 5351500, topLimit := 5366500 },
    changedDisp := false, clarCount := 0, catFA := 0 }

/-- A configuration with the values of lines 14 to 16, a pulse divisor of 1 and
no dial reversal. -/
def plainConfig : Config := sourceConfig 1 0 1 false (1 / 2) 1 100

/-! ## Auxiliary facts on machine arithmetic -/

theorem toInt16_of_range {x : Int} (h1 : -32768 ≤ x) (h2 : x ≤ 32767) : toInt16 x = x := by
  unfold toInt16
  omega

theorem tmod_neg_left (a b : Int) : (-a).tmod b = -(a.tmod b) := by
  rw [Int.tmod_def, Int.tmod_def, Int.neg_tdiv]
  ring

theorem tmod_bounds_of_nonneg {c d : Int} (hc : 0 ≤ c) (hd : 0 < d) :
    0 ≤ c.tmod d ∧ c.tmod d < d ∧ c.tmod d ≤ c := by
  refine ⟨Int.tmod_nonneg d hc, Int.tmod_lt_of_pos c hd, ?_⟩
  have h1 : 0 ≤ c.tdiv d := Int.tdiv_nonneg hc (le_of_lt hd)
  have h2 : 0 ≤ d * c.tdiv d := mul_nonneg (le_of_lt hd) h1
  have h3 := Int.tmod_add_tdiv c d
  omega

theorem tmod_bounds_of_nonpos {c d : Int} (hc : c ≤ 0) (hd : 0 < d) :
    c.tmod d ≤ 0 ∧ -d < c.tmod d ∧ c ≤ c.tmod d := by
  have h := tmod_bounds_of_nonneg (c := -c) (by omega) hd
  rw [tmod_neg_left] at h
  omega

theorem abs_tmod_lt (c : Int) {d : Int} (hd : 0 < d) : |c.tmod d| < d := by
  rcases le_total 0 c with hc | hc
  · have h := tmod_bounds_of_nonneg hc hd
    rw [abs_of_nonneg h.1]
    exact h.2.1
  · have h := tmod_bounds_of_nonpos hc hd
    rw [abs_of_nonpos h.1]
    omega

theorem tmod_int16 {c d : Int} (h1 : -32768 ≤ c) (h2 : c ≤ 32767) (hd : 0 < d) :
    toInt16 (c.tmod d) = c.tmod d := by
  rcases le_total 0 c with hc | hc
  · have h := tmod_bounds_of_nonneg hc hd
    exact toInt16_of_range (by omega) (by omega)
  · have h := tmod_bounds_of_nonpos hc hd
    exact toInt16_of_range (by omega) (by omega)

/-! ## Structure of the tick -/

theorem clearPulse_freqCount (st : State) : (clearPulse st).freqCount = st.freqCount := by
  unfold clearPulse
  split <;> rfl

theorem drainCounter_eq (cfg : Config) (st : State) (hd : cfg.ENCDR_FCTR ≠ 0) :
    drainCounter cfg st =
      some { st with count := st.freqCount.tdiv cfg.ENCDR_FCTR,
                     freqCount := toInt16 (st.freqCount.tmod cfg.ENCDR_FCTR) } := by
  simp [drainCounter, readCount, keepRemainder, hd]

theorem accelerate_freqCount {cfg : Config} {st st1 : State}
    (h : accelerate cfg st = some st1) : st1.freqCount = st.freqCount := by
  unfold accelerate at h
  split at h
  · split at h
    · exact absurd h (by simp)
    · cases h
      rfl
  · cases h
    rfl

theorem updateFrequency_freqCount {cfg : Config} {st st1 : State}
    (h : updateFrequency cfg st = some st1) : st1.freqCount = st.freqCount := by
  unfold updateFrequency at h
  split at h
  · split at h
    · exact absurd h (by simp)
    · cases h
      rfl
  · cases h
    rfl

theorem accelerate_lclIncr {cfg : Config} {st st1 : State}
    (h : accelerate cfg st = some st1) : st1.lclIncr = st.lclIncr := by
  unfold accelerate at h
  split at h
  · split at h
    · exact absurd h (by simp)
    · cases h
      rfl
  · cases h
    rfl

theorem accelerate_active (cfg : Config) (st : State) (hc : st.count ≠ 0)
    (hs : st.lclIncr ≠ 0) :
    accelerate cfg st =
      some { st with
        freqDir := direction cfg st.count,
        count := |st.count|,
        incrFactor := (increment cfg st.lclIncr |st.count| st.L).2,
        afstp := direction cfg st.count *
          ((truncToInt (((|st.count| : Int) : ℚ) *
            (increment cfg st.lclIncr |st.count| st.L).2)).tdiv st.lclIncr) * st.lclIncr,
        L := if (increment cfg st.lclIncr |st.count| st.L).1 > cfg.MaxL then cfg.MaxL
             else (increment cfg st.lclIncr |st.count| st.L).1 } := by
  simp [accelerate, hc, hs]

theorem accelerate_idle (cfg : Config) (st : State) (hc : st.count = 0) :
    accelerate cfg st =
      some { st with L := if st.L - cfg.Rdec < 0 then 0 else st.L - cfg.Rdec } := by
  simp [accelerate, hc]

theorem updateFrequency_active (cfg : Config) (st : State) (ha : st.afstp ≠ 0)
    (hs : st.lclIncr ≠ 0) :
    updateFrequency cfg st =
      some { st with
        changedDisp := true,
        rxFreq := (rangeCheck st.band (st.band.vfoA + st.afstp)).tdiv st.lclIncr * st.lclIncr,
        band := { st.band with
          vfoA := (rangeCheck st.band (st.band.vfoA + st.afstp)).tdiv st.lclIncr * st.lclIncr },
        catFA := (rangeCheck st.band (st.band.vfoA + st.afstp)).tdiv st.lclIncr * st.lclIncr,
        afstp := 0,
        clarCount := if cfg.CLAR_FA_RESET then 0 else st.clarCount } := by
  simp [updateFrequency, ha, hs]

theorem updateFrequency_skip (cfg : Config) (st : State) (ha : st.afstp = 0) :
    updateFrequency cfg st = some st := by
  simp [updateFrequency, ha]

theorem accelerate_isSome (cfg : Config) (st : State) (hs : st.lclIncr ≠ 0) :
    ∃ st1, accelerate cfg st = some st1 := by
  by_cases hc : st.count = 0
  · exact ⟨_, accelerate_idle cfg st hc⟩
  · exact ⟨_, accelerate_active cfg st hc hs⟩

theorem updateFrequency_isSome (cfg : Config) (st : State) (hs : st.lclIncr ≠ 0) :
    ∃ st1, updateFrequency cfg st = some st1 := by
  by_cases ha : st.afstp = 0
  · exact ⟨_, updateFrequency_skip cfg st ha⟩
  · exact ⟨_, updateFrequency_active cfg st ha hs⟩

theorem clearPulse_lclIncr (st : State) : (clearPulse st).lclIncr = st.lclIncr := by
  unfold clearPulse
  split <;> rfl

/-- With a non-zero pulse divisor and a non-zero tuning step the tick returns. -/
theorem tick_isSome (cfg : Config) (st : State) (hd : cfg.ENCDR_FCTR ≠ 0)
    (hs : st.lclIncr ≠ 0) : ∃ st1, tick cfg st = some st1 := by
  unfold tick accelerationEngine
  rw [drainCounter_eq cfg _ hd]
  obtain ⟨st1, h1⟩ := accelerate_isSome cfg
    { clearPulse st with
        count := (clearPulse st).freqCount.tdiv cfg.ENCDR_FCTR,
        freqCount := toInt16 ((clearPulse st).freqCount.tmod cfg.ENCDR_FCTR) }
    (by simpa [clearPulse_lclIncr] using hs)
  have h2 : st1.lclIncr ≠ 0 := by
    rw [accelerate_lclIncr h1]
    simpa [clearPulse_lclIncr] using hs
  obtain ⟨st2, h3⟩ := updateFrequency_isSome cfg st1 h2
  exact ⟨st2, by simp [h1, h3]⟩

/-- The counter left by a tick is the remainder stored on line 97. -/
theorem tick_freqCount {cfg : Config} {st st1 : State} (hd : cfg.ENCDR_FCTR ≠ 0)
    (h : tick cfg st = some st1) :
    st1.freqCount = toInt16 (st.freqCount.tmod cfg.ENCDR_FCTR) := by
  unfold tick accelerationEngine at h
  rw [drainCounter_eq cfg _ hd] at h
  simp only [Option.bind_eq_some, Option.some_bind] at h
  obtain ⟨a, ha, hb⟩ := h
  rw [updateFrequency_freqCount hb, accelerate_freqCount ha]
  simp [clearPulse_freqCount]

/-- The state after lines 86 to 97. -/
theorem accelerationEngine_eq (cfg : Config) (st : State) (hd : cfg.ENCDR_FCTR ≠ 0) :
    accelerationEngine cfg st =
      accelerate cfg { clearPulse st with
        count := st.freqCount.tdiv cfg.ENCDR_FCTR,
        freqCount := toInt16 (st.freqCount.tmod cfg.ENCDR_FCTR) } := by
  unfold accelerationEngine
  rw [drainCounter_eq cfg _ hd]
  simp [clearPulse_freqCount]

theorem clearPulse_L (st : State) : (clearPulse st).L = st.L := by
  unfold clearPulse
  split <;> rfl

theorem clearPulse_afstp (st : State) : (clearPulse st).afstp = st.afstp := by
  unfold clearPulse
  split <;> rfl

theorem clearPulse_band (st : State) : (clearPulse st).band = st.band := by
  unfold clearPulse
  split <;> rfl

/-- The delta of an active tick: the engine returns, and `afstp`, `incrFactor`
and `L` are the values computed on lines 101 to 134 from the reduced count. -/
theorem accelerationEngine_active (cfg : Config) (st : State) (hd : cfg.ENCDR_FCTR ≠ 0)
    (hc : st.freqCount.tdiv cfg.ENCDR_FCTR ≠ 0) (hs : st.lclIncr ≠ 0) :
    ∃ st1, accelerationEngine cfg st = some st1 ∧
      st1.count = |st.freqCount.tdiv cfg.ENCDR_FCTR| ∧
      st1.freqDir = direction cfg (st.freqCount.tdiv cfg.ENCDR_FCTR) ∧
      st1.incrFactor =
        (increment cfg st.lclIncr |st.freqCount.tdiv cfg.ENCDR_FCTR| st.L).2 ∧
      st1.afstp = direction cfg (st.freqCount.tdiv cfg.ENCDR_FCTR) *
        ((truncToInt (((|st.freqCount.tdiv cfg.ENCDR_FCTR| : Int) : ℚ) *
          (increment cfg st.lclIncr |st.freqCount.tdiv cfg.ENCDR_FCTR| st.L).2)).tdiv
            st.lclIncr) * st.lclIncr ∧
      st1.L = (if (increment cfg st.lclIncr |st.freqCount.tdiv cfg.ENCDR_FCTR| st.L).1
                  > cfg.MaxL then cfg.MaxL
               else (increment cfg st.lclIncr |st.freqCount.tdiv cfg.ENCDR_FCTR| st.L).1) ∧
      st1.lclIncr = st.lclIncr ∧ st1.band = st.band := by
  rw [accelerationEngine_eq cfg st hd]
  rw [accelerate_active cfg _ hc (by simpa [clearPulse_lclIncr] using hs)]
  refine ⟨_, rfl, rfl, rfl, ?_, ?_, ?_, ?_, ?_⟩
  · simp [clearPulse_lclIncr, clearPulse_L]
  · simp [clearPulse_lclIncr, clearPulse_L]
  · simp [clearPulse_lclIncr, clearPulse_L]
  · simp [clearPulse_lclIncr]
  · simp [clearPulse_band]

/-! ## Auxiliary facts on the delta -/

theorem truncToInt_intCast (z : Int) : truncToInt (z : ℚ) = z := by
  unfold truncToInt
  split <;> simp

theorem le_truncToInt {s : Int} {q : ℚ} (hs : 0 ≤ s) (h : (s : ℚ) ≤ q) : s ≤ truncToInt q := by
  have hq : (0 : ℚ) ≤ q := le_trans (by exact_mod_cast hs) h
  unfold truncToInt
  rw [if_pos hq]
  exact Int.le_floor.mpr h

theorem one_le_tdiv {a s : Int} (hs : 0 < s) (h : s ≤ a) : 1 ≤ a.tdiv s := by
  rw [Int.tdiv_eq_ediv (by omega) (le_of_lt hs)]
  exact (Int.le_ediv_iff_mul_le hs).mpr (by omega)

theorem direction_eq (cfg : Config) {c : Int} (hc : c ≠ 0) :
    direction cfg c = Int.sign c * (if cfg.F_REV = 1 then -1 else 1) := by
  unfold direction
  rcases lt_or_gt_of_ne hc with h | h
  · rw [Int.sign_eq_neg_one_of_neg h]
    have : ¬ c > 0 := by omega
    simp only [this, if_false]
    split <;> simp
  · rw [Int.sign_eq_one_of_pos h]
    simp only [h, if_true]
    split <;> simp

theorem direction_cases (cfg : Config) (c : Int) :
    direction cfg c = 1 ∨ direction cfg c = -1 := by
  unfold direction
  by_cases h1 : c > 0 <;> by_cases h2 : cfg.F_REV = 1 <;> simp [h1, h2]

/-- Above the step: every increment of an active tick is at least the tuning
step, when the linear factor is positive or the dynamic gain is not negative. -/
theorem le_increment_snd (cfg : Config) {s n : Int} (L : ℚ) (hs : 0 < s) (hn : 1 ≤ n)
    (hacc : cfg.ACCELERATE = true → 0 < cfg.ACC_FACTOR ∨ (cfg.ACC_FACTOR = 0 ∧ 0 ≤ cfg.Racc)) :
    (s : ℚ) ≤ (increment cfg s n L).2 := by
  have hsq : (0 : ℚ) < (s : ℚ) := by exact_mod_cast hs
  unfold increment
  split
  · rename_i h
    rcases hacc h.1 with hf | ⟨hf, hr⟩
    · have hf0 : cfg.ACC_FACTOR ≠ 0 := by omega
      simp only [hf0, ne_eq, not_false_eq_true, if_true]
      have : s * 1 ≤ s * cfg.ACC_FACTOR := Int.mul_le_mul_of_nonneg_left (by omega) (le_of_lt hs)
      exact_mod_cast (by omega : s ≤ s * cfg.ACC_FACTOR)
    · simp only [hf, ne_eq, not_true_eq_false, if_false]
      have h2 : 0 ≤ cfg.Racc * (L + 1 * ((|n| - cfg.V_TH : Int) : ℚ))
          * (L + 1 * ((|n| - cfg.V_TH : Int) : ℚ)) := by
        rw [mul_assoc]
        exact mul_nonneg hr (mul_self_nonneg _)
      linarith
  · have : s * 1 ≤ s * n := Int.mul_le_mul_of_nonneg_left hn (le_of_lt hs)
    show (s : ℚ) ≤ ((s * n : Int) : ℚ)
    exact_mod_cast (by omega : s ≤ s * n)

/-! ## C1: band-edge clamping -/

/-- C1, evaluated on the code. On a band whose lower edge 5351500 is not a
multiple of the step 1000 (with `lowLimit ≤ topLimit` and a positive step), tuned
to 5352000, a delta of -1000 makes the update block write 5351000, which is
below `lowLimit`: the value is clamped to 5351500 and then rounded down to the
step grid. The same value is written by a whole tick that starts with one
counter-clockwise pulse in `freqCount`. -/
theorem C1_written_frequency_below_lowLimit :
    restState.band.lowLimit ≤ restState.band.topLimit ∧ 0 < restState.lclIncr ∧
    (updateFrequency plainConfig { restState with afstp := -1000 }).map
      (fun s => s.band.vfoA) = some 5351000 ∧
    (tick plainConfig { restState with freqCount := -1 }).map
      (fun s => (s.band.vfoA, s.band.lowLimit)) = some (5351000, 5351500) ∧
    ¬ (restState.band.lowLimit ≤ (5351000 : Int)) := by
  refine ⟨by decide, by decide, ?_, ?_, by decide⟩
  · rw [updateFrequency_active _ _ (by decide) (by decide)]
    decide
  · simp [tick, accelerationEngine, drainCounter, readCount, keepRemainder, clearPulse,
      accelerate, updateFrequency, plainConfig, sourceConfig, restState, toInt16, direction,
      increment, truncToInt, rangeCheck]
    decide

/-! ## C2: counter remainder preservation -/

/-- C2. For every value `c` of the `int16_t` counter and every pulse divisor
`d ≥ 1`, lines 96 and 97 return, set `count = c / d` and leave
`freqCount = c % d` (division of C), so that `count * d + freqCount = c` and
`|freqCount| < d`; a whole tick leaves the same remainder in `freqCount`
whenever the tuning step is not zero. -/
theorem C2_counter_remainder_preserved (cfg : Config) (st : State)
    (hd : 1 ≤ cfg.ENCDR_FCTR)
    (hlo : -32768 ≤ st.freqCount) (hhi : st.freqCount ≤ 32767) :
    (∃ st1, drainCounter cfg st = some st1 ∧
      st1.count = st.freqCount.tdiv cfg.ENCDR_FCTR ∧
      st1.freqCount = st.freqCount.tmod cfg.ENCDR_FCTR ∧
      st1.count * cfg.ENCDR_FCTR + st1.freqCount = st.freqCount ∧
      |st1.freqCount| < cfg.ENCDR_FCTR) ∧
    (st.lclIncr ≠ 0 → ∃ st2, tick cfg st = some st2 ∧
      st2.freqCount = st.freqCount.tmod cfg.ENCDR_FCTR) := by
  have hd0 : cfg.ENCDR_FCTR ≠ 0 := by omega
  have hpos : 0 < cfg.ENCDR_FCTR := by omega
  have hw := tmod_int16 hlo hhi hpos
  constructor
  · refine ⟨_, drainCounter_eq cfg st hd0, rfl, hw, ?_, ?_⟩
    · show st.freqCount.tdiv cfg.ENCDR_FCTR * cfg.ENCDR_FCTR
        + toInt16 (st.freqCount.tmod cfg.ENCDR_FCTR) = st.freqCount
      rw [hw]
      exact Int.tdiv_add_tmod' st.freqCount cfg.ENCDR_FCTR
    · show |toInt16 (st.freqCount.tmod cfg.ENCDR_FCTR)| < cfg.ENCDR_FCTR
      rw [hw]
      exact abs_tmod_lt _ hpos
  · intro hs
    obtain ⟨st2, h2⟩ := tick_isSome cfg st hd0 hs
    exact ⟨st2, h2, by rw [tick_freqCount hd0 h2, hw]⟩

/-- C2 at the example of the specification: divisor 4 and counter 10 give
`count = 2` and leave the remainder 2. -/
theorem C2_counter_remainder_preserved_witness :
    (∃ st1, drainCounter (sourceConfig 4 0 1 false (1 / 2) 1 100)
        { restState with freqCount := 10 } = some st1 ∧
      st1.count = 2 ∧ st1.freqCount = 2 ∧
      st1.count * 4 + st1.freqCount = 10 ∧ |st1.freqCount| < 4) ∧
    (restState.lclIncr ≠ 0 → ∃ st2, tick (sourceConfig 4 0 1 false (1 / 2) 1 100)
        { restState with freqCount := 10 } = some st2 ∧ st2.freqCount = 2) :=
  C2_counter_remainder_preserved (sourceConfig 4 0 1 false (1 / 2) 1 100)
    { restState with freqCount := 10 } (by decide) (by decide) (by decide)

/-! ## C3: direction reconciliation -/

/-- C3. For every non-zero reduced count, both settings of `F_REV`, every
positive tuning step and every acceleration configuration (off, linear with a
positive factor, dynamic with a gain that is not negative), the engine returns
a delta `afstp` that is not zero and whose sign is the sign of the count, negated
when `F_REV == 1`. -/
theorem C3_direction_reconciliation (cfg : Config) (st : State)
    (hd : cfg.ENCDR_FCTR ≠ 0) (hc : st.freqCount.tdiv cfg.ENCDR_FCTR ≠ 0)
    (hs : 0 < st.lclIncr)
    (hacc : cfg.ACCELERATE = true → 0 < cfg.ACC_FACTOR ∨ (cfg.ACC_FACTOR = 0 ∧ 0 ≤ cfg.Racc)) :
    ∃ st1, accelerationEngine cfg st = some st1 ∧ st1.afstp ≠ 0 ∧
      Int.sign st1.afstp =
        Int.sign (st.freqCount.tdiv cfg.ENCDR_FCTR) * (if cfg.F_REV = 1 then -1 else 1) := by
  obtain ⟨st1, h1, -, -, -, hafstp, -, -, -⟩ :=
    accelerationEngine_active cfg st hd hc (by omega)
  have hn : 1 ≤ |st.freqCount.tdiv cfg.ENCDR_FCTR| := Int.one_le_abs hc
  have hincr := le_increment_snd cfg st.L hs hn hacc
  have hsq : (0 : ℚ) < (st.lclIncr : ℚ) := by exact_mod_cast hs
  have hnq : (1 : ℚ) ≤ ((|st.freqCount.tdiv cfg.ENCDR_FCTR| : Int) : ℚ) := by exact_mod_cast hn
  have hraw : (st.lclIncr : ℚ) ≤ ((|st.freqCount.tdiv cfg.ENCDR_FCTR| : Int) : ℚ) *
      (increment cfg st.lclIncr |st.freqCount.tdiv cfg.ENCDR_FCTR| st.L).2 := by
    nlinarith
  have hk := one_le_tdiv hs (le_truncToInt (le_of_lt hs) hraw)
  have hsign : Int.sign st1.afstp = direction cfg (st.freqCount.tdiv cfg.ENCDR_FCTR) := by
    have hkpos : 0 < (truncToInt (((|st.freqCount.tdiv cfg.ENCDR_FCTR| : Int) : ℚ) *
        (increment cfg st.lclIncr |st.freqCount.tdiv cfg.ENCDR_FCTR| st.L).2)).tdiv
          st.lclIncr := by omega
    rw [hafstp, Int.sign_mul, Int.sign_mul, Int.sign_eq_one_of_pos hs,
      Int.sign_eq_one_of_pos hkpos]
    rcases direction_cases cfg (st.freqCount.tdiv cfg.ENCDR_FCTR) with h | h <;> rw [h] <;> rfl
  refine ⟨st1, h1, ?_, ?_⟩
  · intro h0
    rw [h0] at hsign
    rcases direction_cases cfg (st.freqCount.tdiv cfg.ENCDR_FCTR) with h | h <;>
      rw [h] at hsign <;> simp at hsign
  · rw [hsign, direction_eq cfg hc]

/-- C3 at three counter-clockwise pulses with the dial reversed (`F_REV == 1`),
in dynamic mode: the delta is positive. -/
theorem C3_direction_reconciliation_witness :
    ∃ st1, accelerationEngine (sourceConfig 1 1 1 false (1 / 2) 1 100)
        { restState with freqCount := -3 } = some st1 ∧ st1.afstp ≠ 0 ∧
      Int.sign st1.afstp = Int.sign (Int.tdiv (-3) 1) * (if (1 : Int) = 1 then -1 else 1) :=
  C3_direction_reconciliation (sourceConfig 1 1 1 false (1 / 2) 1 100)
    { restState with freqCount := -3 } (by decide) (by decide) (by decide)
    (fun _ => Or.inr ⟨rfl, by norm_num [sourceConfig]⟩)

/-! ## C4: step quantization -/

/-- C4. For every non-zero reduced count and every positive tuning step, in
every acceleration mode, the delta emitted by the active branch is
`freqDir * (raw / lclIncr) * lclIncr` for the raw delta `count * incrFactor`,
hence an integer multiple of the tuning step. -/
theorem C4_step_quantization (cfg : Config) (st : State)
    (hd : cfg.ENCDR_FCTR ≠ 0) (hc : st.freqCount.tdiv cfg.ENCDR_FCTR ≠ 0)
    (hs : 0 < st.lclIncr) :
    ∃ st1, accelerationEngine cfg st = some st1 ∧
      st1.afstp = st1.freqDir *
        ((truncToInt ((st1.count : ℚ) * st1.incrFactor)).tdiv st.lclIncr) * st.lclIncr ∧
      st.lclIncr ∣ st1.afstp := by
  obtain ⟨st1, h1, hcount, hdir, hincr, hafstp, -, -, -⟩ :=
    accelerationEngine_active cfg st hd hc (by omega)
  refine ⟨st1, h1, ?_, ?_⟩
  · rw [hafstp, hcount, hdir, hincr]
  · rw [hafstp]
    exact Dvd.intro_left _ rfl

/-- C4 at five pulses in dynamic mode with step 1000: the raw delta
`5 * (1000 + 4.5)` is emitted as a multiple of 1000. -/
theorem C4_step_quantization_witness :
    ∃ st1, accelerationEngine plainConfig { restState with freqCount := 5 } = some st1 ∧
      st1.afstp = st1.freqDir *
        ((truncToInt ((st1.count : ℚ) * st1.incrFactor)).tdiv 1000) * 1000 ∧
      (1000 : Int) ∣ st1.afstp :=
  C4_step_quantization plainConfig { restState with freqCount := 5 }
    (by decide) (by decide) (by decide)

/-! ## C5: the frequency written by the update -/

theorem rangeCheck_eq_clampSpec (b : BandData) (x : Int) :
    rangeCheck b x = clampSpec x b.lowLimit b.topLimit := by
  unfold rangeCheck clampSpec
  simp only [max_def, min_def]
  split_ifs <;> omega

/-- C5. For every non-zero delta and every positive tuning step the update
returns, and the value it writes to `bandData[activeBand].vfoA` (and hands to
`CAT.SetFA`) is the clamp of `vfoA + afstp` to the band limits, divided by the
step and multiplied back. It is a multiple of the step, also when the clamp
landed on a limit off the grid; for a clamped value that is not negative it is
the largest multiple of the step not above the clamped value. -/
theorem C5_frequency_update_result (cfg : Config) (st : State)
    (ha : st.afstp ≠ 0) (hs : 0 < st.lclIncr) :
    ∃ st1, updateFrequency cfg st = some st1 ∧
      st1.band.vfoA = floorToMultiple
        (clampSpec (st.band.vfoA + st.afstp) st.band.lowLimit st.band.topLimit) st.lclIncr ∧
      st1.catFA = st1.band.vfoA ∧
      st.lclIncr ∣ st1.band.vfoA ∧
      (0 ≤ clampSpec (st.band.vfoA + st.afstp) st.band.lowLimit st.band.topLimit →
        st1.band.vfoA =
          clampSpec (st.band.vfoA + st.afstp) st.band.lowLimit st.band.topLimit
            / st.lclIncr * st.lclIncr ∧
        st1.band.vfoA ≤ clampSpec (st.band.vfoA + st.afstp) st.band.lowLimit st.band.topLimit ∧
        clampSpec (st.band.vfoA + st.afstp) st.band.lowLimit st.band.topLimit
          < st1.band.vfoA + st.lclIncr) := by
  refine ⟨_, updateFrequency_active cfg st ha (by omega), ?_, rfl, ?_, ?_⟩
  · show (rangeCheck st.band (st.band.vfoA + st.afstp)).tdiv st.lclIncr * st.lclIncr = _
    rw [rangeCheck_eq_clampSpec]
    rfl
  · exact Dvd.intro_left _ rfl
  · intro h0
    show (rangeCheck st.band (st.band.vfoA + st.afstp)).tdiv st.lclIncr * st.lclIncr = _ ∧
      (rangeCheck st.band (st.band.vfoA + st.afstp)).tdiv st.lclIncr * st.lclIncr ≤ _ ∧
      _ < (rangeCheck st.band (st.band.vfoA + st.afstp)).tdiv st.lclIncr * st.lclIncr + _
    rw [rangeCheck_eq_clampSpec, Int.tdiv_eq_ediv h0 (le_of_lt hs)]
    refine ⟨rfl, Int.ediv_mul_le _ (by omega), ?_⟩
    have := Int.lt_ediv_add_one_mul_self
      (clampSpec (st.band.vfoA + st.afstp) st.band.lowLimit st.band.topLimit) hs
    linarith

/-- C5 at the band edge off the grid: the target 5351000 is clamped to the
lower limit 5351500 and written as 5351000, a multiple of the step 1000. -/
theorem C5_frequency_update_result_witness :
    ∃ st1, updateFrequency plainConfig { restState with afstp := -1000 } = some st1 ∧
      st1.band.vfoA = floorToMultiple (clampSpec (5352000 + -1000) 5351500 5366500) 1000 ∧
      st1.catFA = st1.band.vfoA ∧
      (1000 : Int) ∣ st1.band.vfoA ∧
      (0 ≤ clampSpec (5352000 + -1000) 5351500 5366500 →
        st1.band.vfoA = clampSpec (5352000 + -1000) 5351500 5366500 / 1000 * 1000 ∧
        st1.band.vfoA ≤ clampSpec (5352000 + -1000) 5351500 5366500 ∧
        clampSpec (5352000 + -1000) 5351500 5366500 < st1.band.vfoA + 1000) :=
  C5_frequency_update_result plainConfig { restState with afstp := -1000 }
    (by decide) (by decide)

/-! ## C6: transmit lock -/

theorem FrequencyISR_locked (cfg : Config) (dir : Direction) (st : State)
    (hl : cfg.PTT_LINE ≠ 0 ∧ st.xmitStatus ≠ 0) : FrequencyISR cfg dir st = st := by
  unfold FrequencyISR
  rw [if_pos hl]

/-- C6. While `PTT_LINE` and `xmitStatus` are both non-zero, any sequence of
invocations of `FrequencyISR`, whatever the decoder returns in each of them,
leaves `freqCount` and `freqPulse` (indeed the whole state) unchanged. -/
theorem C6_transmit_lock (cfg : Config) (st : State) (dirs : List Direction)
    (hl : cfg.PTT_LINE ≠ 0 ∧ st.xmitStatus ≠ 0) :
    (runISR cfg dirs st).freqCount = st.freqCount ∧
    (runISR cfg dirs st).freqPulse = st.freqPulse ∧
    runISR cfg dirs st = st := by
  have h : runISR cfg dirs st = st := by
    induction dirs with
    | nil => rfl
    | cons dir rest ih =>
      show runISR cfg rest (FrequencyISR cfg dir st) = st
      rw [FrequencyISR_locked cfg dir st hl]
      exact ih
  rw [h]
  exact ⟨rfl, rfl, rfl⟩

/-- C6 at three encoder transitions during transmission. -/
theorem C6_transmit_lock_witness :
    (runISR plainConfig [Direction.Positive, Direction.Negative, Direction.Positive]
      { restState with xmitStatus := 1, freqCount := 7 }).freqCount = 7 ∧
    (runISR plainConfig [Direction.Positive, Direction.Negative, Direction.Positive]
      { restState with xmitStatus := 1, freqCount := 7 }).freqPulse = false ∧
    runISR plainConfig [Direction.Positive, Direction.Negative, Direction.Positive]
      { restState with xmitStatus := 1, freqCount := 7 }
      = { restState with xmitStatus := 1, freqCount := 7 } :=
  C6_transmit_lock plainConfig { restState with xmitStatus := 1, freqCount := 7 }
    [Direction.Positive, Direction.Negative, Direction.Positive] ⟨by decide, by decide⟩

/-! ## C7: pulse capture -/

/-- What the handler does when the transmit lock does not hold: the direction
value is stored in the `uint8_t` variable `Result`, compared with `DIR_NONE`
and added to the `int16_t` counter. -/
theorem FrequencyISR_unlocked (cfg : Config) (dir : Direction) (st : State)
    (hl : ¬ (cfg.PTT_LINE ≠ 0 ∧ st.xmitStatus ≠ 0)) :
    FrequencyISR cfg dir st =
      if toUInt8 dir.value = DIR_NONE then st
      else { st with freqPulse := true,
                     freqCount := toInt16 (st.freqCount + toUInt8 dir.value) } := by
  unfold FrequencyISR
  rw [if_neg hl]

/-- C7, evaluated on the code. Without transmit lock and with the counter at 0,
a decoded `Negative` direction (value -1) sets `freqPulse` and leaves
`freqCount = 255`, not `0 + (-1)`: the value -1 becomes 255 in the `uint8_t`
variable `Result` before it is added. A `Positive` direction leaves 1, and `None`
leaves the state unchanged. -/
theorem C7_negative_pulse_adds_255 :
    ¬ (plainConfig.PTT_LINE ≠ 0 ∧ restState.xmitStatus ≠ 0) ∧
    (FrequencyISR plainConfig Direction.Negative restState).freqPulse = true ∧
    (FrequencyISR plainConfig Direction.Negative restState).freqCount = 255 ∧
    (FrequencyISR plainConfig Direction.Negative restState).freqCount
      ≠ restState.freqCount + Direction.Negative.value ∧
    (FrequencyISR plainConfig Direction.Positive restState).freqCount
      = restState.freqCount + Direction.Positive.value ∧
    FrequencyISR plainConfig Direction.None restState = restState := by
  decide

/-! ## C8: linear acceleration -/

theorem increment_linear (cfg : Config) (s n : Int) (L : ℚ) (hacc : cfg.ACCELERATE = true)
    (hf : cfg.ACC_FACTOR ≠ 0) (hth : cfg.V_TH ≤ n) :
    increment cfg s n L = (L, ((s * cfg.ACC_FACTOR : Int) : ℚ)) := by
  unfold increment
  rw [if_pos ⟨hacc, hth⟩, if_pos hf]

/-- C8. With `ACCELERATE` on and a non-zero `ACC_FACTOR`, for every non-zero
reduced count of magnitude `n ≥ V_TH` and every positive tuning step `s`, the
engine returns with `incrFactor = s * ACC_FACTOR`, whatever `n` is; the raw
delta `count * incrFactor` is `n * s * ACC_FACTOR`, the division by the step and
multiplication back leave it unchanged, and the emitted delta is
`direction * n * s * ACC_FACTOR`. -/
theorem C8_linear_acceleration (cfg : Config) (st : State)
    (hd : cfg.ENCDR_FCTR ≠ 0) (hacc : cfg.ACCELERATE = true) (hf : cfg.ACC_FACTOR ≠ 0)
    (hc : st.freqCount.tdiv cfg.ENCDR_FCTR ≠ 0)
    (hth : cfg.V_TH ≤ |st.freqCount.tdiv cfg.ENCDR_FCTR|) (hs : 0 < st.lclIncr) :
    ∃ st1, accelerationEngine cfg st = some st1 ∧
      st1.count = |st.freqCount.tdiv cfg.ENCDR_FCTR| ∧
      st1.incrFactor = ((st.lclIncr * cfg.ACC_FACTOR : Int) : ℚ) ∧
      truncToInt ((st1.count : ℚ) * st1.incrFactor)
        = |st.freqCount.tdiv cfg.ENCDR_FCTR| * st.lclIncr * cfg.ACC_FACTOR ∧
      (|st.freqCount.tdiv cfg.ENCDR_FCTR| * st.lclIncr * cfg.ACC_FACTOR).tdiv st.lclIncr
          * st.lclIncr
        = |st.freqCount.tdiv cfg.ENCDR_FCTR| * st.lclIncr * cfg.ACC_FACTOR ∧
      st1.afstp = direction cfg (st.freqCount.tdiv cfg.ENCDR_FCTR) *
        (|st.freqCount.tdiv cfg.ENCDR_FCTR| * st.lclIncr * cfg.ACC_FACTOR) := by
  have hs0 : st.lclIncr ≠ 0 := by omega
  obtain ⟨st1, h1, hcount, -, hincr, hafstp, -, -, -⟩ :=
    accelerationEngine_active cfg st hd hc hs0
  rw [increment_linear cfg _ _ _ hacc hf hth] at hincr hafstp
  have hraw : truncToInt (((|st.freqCount.tdiv cfg.ENCDR_FCTR| : Int) : ℚ) *
      ((st.lclIncr * cfg.ACC_FACTOR : Int) : ℚ))
        = |st.freqCount.tdiv cfg.ENCDR_FCTR| * st.lclIncr * cfg.ACC_FACTOR := by
    rw [← Int.cast_mul, truncToInt_intCast]
    ring
  have hq : (|st.freqCount.tdiv cfg.ENCDR_FCTR| * st.lclIncr * cfg.ACC_FACTOR).tdiv st.lclIncr
      * st.lclIncr = |st.freqCount.tdiv cfg.ENCDR_FCTR| * st.lclIncr * cfg.ACC_FACTOR := by
    apply Int.tdiv_mul_cancel
    exact Dvd.intro (|st.freqCount.tdiv cfg.ENCDR_FCTR| * cfg.ACC_FACTOR) (by ring)
  refine ⟨st1, h1, hcount, hincr, ?_, hq, ?_⟩
  · rw [hcount, hincr]
    exact hraw
  · rw [hafstp]
    simp only [] at hraw
    rw [hraw, mul_assoc, hq]

/-- C8 at the example of the specification: factor 4, threshold 2, three
pulses and step 10 give the increment 40 and the delta 120. -/
theorem C8_linear_acceleration_witness :
    ∃ st1, accelerationEngine { plainConfig with ACC_FACTOR := 4 }
        { restState with freqCount := 3, lclIncr := 10 } = some st1 ∧
      st1.count = 3 ∧ st1.incrFactor = 40 ∧
      truncToInt ((st1.count : ℚ) * st1.incrFactor) = 120 ∧
      (120 : Int).tdiv 10 * 10 = 120 ∧ st1.afstp = 120 := by
  obtain ⟨st1, h1, h2, h3, h4, h5, h6⟩ :=
    C8_linear_acceleration { plainConfig with ACC_FACTOR := 4 }
      { restState with freqCount := 3, lclIncr := 10 }
      (by decide) rfl (by decide) (by decide) (by decide) (by decide)
  refine ⟨st1, h1, h2, ?_, h4, by decide, h6⟩
  rw [h3]
  norm_num

/-! ## C11: the range of the velocity -/

theorem FrequencyISR_frame (cfg : Config) (dir : Direction) (st : State) :
    (FrequencyISR cfg dir st).L = st.L ∧ (FrequencyISR cfg dir st).lclIncr = st.lclIncr ∧
    (FrequencyISR cfg dir st).afstp = st.afstp ∧ (FrequencyISR cfg dir st).band = st.band ∧
    (FrequencyISR cfg dir st).count = st.count := by
  by_cases hl : cfg.PTT_LINE ≠ 0 ∧ st.xmitStatus ≠ 0
  · rw [FrequencyISR_locked cfg dir st hl]
    exact ⟨rfl, rfl, rfl, rfl, rfl⟩
  · rw [FrequencyISR_unlocked cfg dir st hl]
    by_cases hn : toUInt8 dir.value = DIR_NONE
    · rw [if_pos hn]
      exact ⟨rfl, rfl, rfl, rfl, rfl⟩
    · rw [if_neg hn]
      exact ⟨rfl, rfl, rfl, rfl, rfl⟩

theorem le_increment_fst (cfg : Config) (s n : Int) (L : ℚ) : L ≤ (increment cfg s n L).1 := by
  unfold increment
  split
  · rename_i h
    split
    · exact le_refl _
    · have h1 : cfg.V_TH ≤ |n| := le_trans h.2 (le_abs_self n)
      have h2 : (0 : ℚ) ≤ ((|n| - cfg.V_TH : Int) : ℚ) := by exact_mod_cast (by omega : 0 ≤ |n| - cfg.V_TH)
      show L ≤ L + 1 * ((|n| - cfg.V_TH : Int) : ℚ)
      linarith
  · exact le_refl _

theorem updateFrequency_L {cfg : Config} {st st1 : State}
    (h : updateFrequency cfg st = some st1) : st1.L = st.L ∧ st1.lclIncr = st.lclIncr := by
  unfold updateFrequency at h
  split at h
  · split at h
    · exact absurd h (by simp)
    · cases h
      exact ⟨rfl, rfl⟩
  · cases h
    exact ⟨rfl, rfl⟩

/-- Lines 99 to 143 keep the velocity between 0 and `MaxL`. -/
theorem accelerate_L_range {cfg : Config} {st st1 : State}
    (h : accelerate cfg st = some st1) (hM : 0 ≤ cfg.MaxL) (hR : 0 ≤ cfg.Rdec)
    (h0 : 0 ≤ st.L) (h1 : st.L ≤ cfg.MaxL) : 0 ≤ st1.L ∧ st1.L ≤ cfg.MaxL := by
  by_cases hc : st.count = 0
  · rw [accelerate_idle cfg st hc] at h
    cases h
    show 0 ≤ (if st.L - cfg.Rdec < 0 then 0 else st.L - cfg.Rdec) ∧
      (if st.L - cfg.Rdec < 0 then 0 else st.L - cfg.Rdec) ≤ cfg.MaxL
    split
    · exact ⟨le_refl _, hM⟩
    · constructor <;> linarith
  · by_cases hs : st.lclIncr = 0
    · simp [accelerate, hc, hs] at h
    · rw [accelerate_active cfg st hc hs] at h
      cases h
      have hle := le_increment_fst cfg st.lclIncr |st.count| st.L
      show 0 ≤ (if (increment cfg st.lclIncr |st.count| st.L).1 > cfg.MaxL then cfg.MaxL
          else (increment cfg st.lclIncr |st.count| st.L).1) ∧
        (if (increment cfg st.lclIncr |st.count| st.L).1 > cfg.MaxL then cfg.MaxL
          else (increment cfg st.lclIncr |st.count| st.L).1) ≤ cfg.MaxL
      split
      · exact ⟨hM, le_refl _⟩
      · constructor <;> linarith

/-- Lines 99 to 189 return for a non-zero step and keep the velocity in range. -/
theorem pass_L_range (cfg : Config) (s1 : State) (hs : s1.lclIncr ≠ 0)
    (hM : 0 ≤ cfg.MaxL) (hR : 0 ≤ cfg.Rdec) (h0 : 0 ≤ s1.L) (h1 : s1.L ≤ cfg.MaxL) :
    ∃ s3, (accelerate cfg s1).bind (updateFrequency cfg) = some s3 ∧
      s3.lclIncr = s1.lclIncr ∧ 0 ≤ s3.L ∧ s3.L ≤ cfg.MaxL := by
  obtain ⟨s2, h2⟩ := accelerate_isSome cfg s1 hs
  have hl2 := accelerate_lclIncr h2
  obtain ⟨s3, h3⟩ := updateFrequency_isSome cfg s2 (by rw [hl2]; exact hs)
  have hr := accelerate_L_range h2 hM hR h0 h1
  obtain ⟨hL3, hl3⟩ := updateFrequency_L h3
  refine ⟨s3, by rw [h2, Option.some_bind, h3], by rw [hl3, hl2], ?_, ?_⟩
  · rw [hL3]
    exact hr.1
  · rw [hL3]
    exact hr.2

theorem drainPreempted_eq (cfg : Config) (dir : Direction) (st : State)
    (hd : cfg.ENCDR_FCTR ≠ 0) :
    drainPreempted cfg dir st =
      some { FrequencyISR cfg dir { st with count := st.freqCount.tdiv cfg.ENCDR_FCTR } with
        freqCount := toInt16
          ((FrequencyISR cfg dir
            { st with count := st.freqCount.tdiv cfg.ENCDR_FCTR }).freqCount.tmod
              cfg.ENCDR_FCTR) } := by
  simp [drainPreempted, readCount, keepRemainder, hd]

/-- Every event returns and keeps the velocity between 0 and `MaxL`. -/
theorem step_L_range (cfg : Config) (e : Event) (st : State) (hd : cfg.ENCDR_FCTR ≠ 0)
    (hs : st.lclIncr ≠ 0) (hM : 0 ≤ cfg.MaxL) (hR : 0 ≤ cfg.Rdec)
    (h0 : 0 ≤ st.L) (h1 : st.L ≤ cfg.MaxL) :
    ∃ st1, step cfg e st = some st1 ∧ st1.lclIncr = st.lclIncr ∧
      0 ≤ st1.L ∧ st1.L ≤ cfg.MaxL := by
  cases e with
  | transition dir =>
    obtain ⟨hL, hl, -, -, -⟩ := FrequencyISR_frame cfg dir st
    exact ⟨_, rfl, hl, by rw [hL]; exact h0, by rw [hL]; exact h1⟩
  | loopPass =>
    show ∃ st1, tick cfg st = some st1 ∧ _
    unfold tick accelerationEngine
    rw [drainCounter_eq cfg _ hd, Option.some_bind]
    obtain ⟨s3, h3, hl3, hr⟩ := pass_L_range cfg
      { clearPulse st with
          count := (clearPulse st).freqCount.tdiv cfg.ENCDR_FCTR,
          freqCount := toInt16 ((clearPulse st).freqCount.tmod cfg.ENCDR_FCTR) }
      (by simpa [clearPulse_lclIncr] using hs) hM hR
      (by simpa [clearPulse_L] using h0) (by simpa [clearPulse_L] using h1)
    exact ⟨s3, h3, by rw [hl3]; simp [clearPulse_lclIncr], hr⟩
  | preemptedPass dir =>
    show ∃ st1, tickPreempted cfg dir st = some st1 ∧ _
    unfold tickPreempted
    rw [drainPreempted_eq cfg dir _ hd, Option.some_bind]
    obtain ⟨hL, hl, -, -, -⟩ := FrequencyISR_frame cfg dir
      { clearPulse st with count := (clearPulse st).freqCount.tdiv cfg.ENCDR_FCTR }
    obtain ⟨s3, h3, hl3, hr⟩ := pass_L_range cfg
      { FrequencyISR cfg dir
          { clearPulse st with count := (clearPulse st).freqCount.tdiv cfg.ENCDR_FCTR } with
        freqCount := toInt16
          ((FrequencyISR cfg dir
            { clearPulse st with
              count := (clearPulse st).freqCount.tdiv cfg.ENCDR_FCTR }).freqCount.tmod
              cfg.ENCDR_FCTR) }
      (by
        show (FrequencyISR cfg dir _).lclIncr ≠ 0
        rw [hl]
        simpa [clearPulse_lclIncr] using hs) hM hR
      (by
        show 0 ≤ (FrequencyISR cfg dir _).L
        rw [hL]
        simpa [clearPulse_L] using h0)
      (by
        show (FrequencyISR cfg dir _).L ≤ cfg.MaxL
        rw [hL]
        simpa [clearPulse_L] using h1)
    refine ⟨s3, h3, ?_, hr⟩
    rw [hl3]
    show (FrequencyISR cfg dir _).lclIncr = st.lclIncr
    rw [hl]
    simp [clearPulse_lclIncr]

theorem run_L_range (cfg : Config) (hd : cfg.ENCDR_FCTR ≠ 0) (hM : 0 ≤ cfg.MaxL)
    (hR : 0 ≤ cfg.Rdec) (es : List Event) :
    ∀ st : State, st.lclIncr ≠ 0 → 0 ≤ st.L → st.L ≤ cfg.MaxL →
      ∃ st1, run cfg es st = some st1 ∧ 0 ≤ st1.L ∧ st1.L ≤ cfg.MaxL := by
  induction es with
  | nil =>
    intro st _ h0 h1
    exact ⟨st, rfl, h0, h1⟩
  | cons e es ih =>
    intro st hs h0 h1
    obtain ⟨s1, hstep, hl, h0a, h1a⟩ := step_L_range cfg e st hd hs hM hR h0 h1
    obtain ⟨s2, hrun, hr⟩ := ih s1 (by rw [hl]; exact hs) h0a h1a
    exact ⟨s2, by show (step cfg e st).bind (run cfg es) = some s2; rw [hstep, Option.some_bind, hrun], hr⟩

/-- C11. With `MaxL ≥ 0` and `Rdec ≥ 0`, from a state with `0 ≤ L ≤ MaxL` a
tick returns (pulse divisor and step not zero) and leaves `0 ≤ L ≤ MaxL`, for
every counter value and every acceleration configuration; the same holds after
every sequence of encoder transitions, ticks and ticks interrupted inside the
drain, so in every state reached from `L = 0`. -/
theorem C11_velocity_range_invariant (cfg : Config) (st : State)
    (hd : cfg.ENCDR_FCTR ≠ 0) (hs : st.lclIncr ≠ 0) (hM : 0 ≤ cfg.MaxL) (hR : 0 ≤ cfg.Rdec)
    (h0 : 0 ≤ st.L) (h1 : st.L ≤ cfg.MaxL) :
    (∃ st1, tick cfg st = some st1 ∧ 0 ≤ st1.L ∧ st1.L ≤ cfg.MaxL) ∧
    (∀ es : List Event, ∃ st1, run cfg es st = some st1 ∧ 0 ≤ st1.L ∧ st1.L ≤ cfg.MaxL) ∧
    (∀ es : List Event, ∃ st1, run cfg es { st with L := 0 } = some st1 ∧
      0 ≤ st1.L ∧ st1.L ≤ cfg.MaxL) := by
  refine ⟨?_, fun es => run_L_range cfg hd hM hR es st hs h0 h1,
    fun es => run_L_range cfg hd hM hR es { st with L := 0 } hs (le_refl _) hM⟩
  obtain ⟨st1, h, -, hr⟩ := step_L_range cfg Event.loopPass st hd hs hM hR h0 h1
  exact ⟨st1, h, hr⟩

/-- C11 at a fast turn in dynamic mode that would take the velocity to 148,
above `MaxL = 100`. -/
theorem C11_velocity_range_invariant_witness :
    (∃ st1, tick plainConfig { restState with freqCount := 150 } = some st1 ∧
      0 ≤ st1.L ∧ st1.L ≤ plainConfig.MaxL) ∧
    (∀ es : List Event, ∃ st1,
      run plainConfig es { restState with freqCount := 150 } = some st1 ∧
      0 ≤ st1.L ∧ st1.L ≤ plainConfig.MaxL) ∧
    (∀ es : List Event, ∃ st1,
      run plainConfig es { { restState with freqCount := 150 } with L := 0 } = some st1 ∧
      0 ≤ st1.L ∧ st1.L ≤ plainConfig.MaxL) :=
  C11_velocity_range_invariant plainConfig { restState with freqCount := 150 }
    (by decide) (by decide) (by norm_num [plainConfig, sourceConfig])
    (by norm_num [plainConfig, sourceConfig]) (by norm_num [restState])
    (by norm_num [restState, plainConfig, sourceConfig])

/-! ## C12: idempotence of clamp and quantize -/

theorem clampSpec_bounds (x : Int) {lo hi : Int} (h : lo ≤ hi) :
    lo ≤ clampSpec x lo hi ∧ clampSpec x lo hi ≤ hi := by
  unfold clampSpec
  simp only [max_def, min_def]
  split_ifs <;> omega

theorem clampSpec_of_mem {x lo hi : Int} (h1 : lo ≤ x) (h2 : x ≤ hi) :
    clampSpec x lo hi = x := by
  unfold clampSpec
  simp only [max_def, min_def]
  split_ifs <;> omega

theorem clampSpec_of_lt {x lo hi : Int} (h1 : x < lo) (h2 : lo ≤ hi) :
    clampSpec x lo hi = lo := by
  unfold clampSpec
  simp only [max_def, min_def]
  split_ifs <;> omega

theorem writtenFrequency_eq (b : BandData) (s x : Int) :
    writtenFrequency b s x = (clampSpec x b.lowLimit b.topLimit).tdiv s * s := by
  unfold writtenFrequency
  rw [rangeCheck_eq_clampSpec]

/-- The value written for a band with `0 ≤ lowLimit ≤ topLimit` and a positive
step: the floor of the clamped target on the step grid. -/
theorem writtenFrequency_floor (b : BandData) {s : Int} (x : Int) (hs : 0 < s)
    (hlow : 0 ≤ b.lowLimit) (hlt : b.lowLimit ≤ b.topLimit) :
    writtenFrequency b s x = clampSpec x b.lowLimit b.topLimit / s * s ∧
    writtenFrequency b s x ≤ clampSpec x b.lowLimit b.topLimit ∧
    clampSpec x b.lowLimit b.topLimit < writtenFrequency b s x + s := by
  have hb := clampSpec_bounds x hlt
  have h0 : 0 ≤ clampSpec x b.lowLimit b.topLimit := le_trans hlow hb.1
  rw [writtenFrequency_eq, Int.tdiv_eq_ediv h0 (le_of_lt hs)]
  refine ⟨rfl, Int.ediv_mul_le _ (by omega), ?_⟩
  have := Int.lt_ediv_add_one_mul_self (clampSpec x b.lowLimit b.topLimit) hs
  linarith

theorem writtenFrequency_idem (b : BandData) {s : Int} (x : Int) (hs : 0 < s)
    (hlow : 0 ≤ b.lowLimit) (hlt : b.lowLimit ≤ b.topLimit) :
    writtenFrequency b s (writtenFrequency b s x) = writtenFrequency b s x := by
  obtain ⟨hy, hyle, hylt⟩ := writtenFrequency_floor b x hs hlow hlt
  have hb := clampSpec_bounds x hlt
  have hs0 : s ≠ 0 := by omega
  by_cases hin : b.lowLimit ≤ writtenFrequency b s x
  · rw [writtenFrequency_eq b s (writtenFrequency b s x),
      clampSpec_of_mem hin (le_trans hyle hb.2)]
    apply Int.tdiv_mul_cancel
    rw [hy]
    exact Dvd.intro_left _ rfl
  · have hlt2 : writtenFrequency b s x < b.lowLimit := by omega
    rw [writtenFrequency_eq b s (writtenFrequency b s x), clampSpec_of_lt hlt2 hlt,
      Int.tdiv_eq_ediv hlow (le_of_lt hs), hy]
    have h1 : b.lowLimit / s ≤ clampSpec x b.lowLimit b.topLimit / s :=
      Int.ediv_le_ediv hs hb.1
    have h2 : clampSpec x b.lowLimit b.topLimit / s * s / s ≤ b.lowLimit / s :=
      Int.ediv_le_ediv hs (by rw [← hy]; omega)
    rw [Int.mul_ediv_cancel _ hs0] at h2
    rw [le_antisymm h1 h2]

theorem updateFrequency_writes (cfg : Config) (st : State) (ha : st.afstp ≠ 0)
    (hs : st.lclIncr ≠ 0) :
    ∃ st1, updateFrequency cfg st = some st1 ∧
      st1.band.vfoA = writtenFrequency st.band st.lclIncr (st.band.vfoA + st.afstp) ∧
      st1.band.lowLimit = st.band.lowLimit ∧ st1.band.topLimit = st.band.topLimit ∧
      st1.lclIncr = st.lclIncr ∧ st1.afstp = 0 :=
  ⟨_, updateFrequency_active cfg st ha hs, rfl, rfl, rfl, rfl, rfl⟩

theorem writtenFrequency_limits (b c : BandData) (s x : Int)
    (h1 : c.lowLimit = b.lowLimit) (h2 : c.topLimit = b.topLimit) :
    writtenFrequency c s x = writtenFrequency b s x := by
  rw [writtenFrequency_eq, writtenFrequency_eq, h1, h2]

/-- C12. Let `F x` be the frequency written for the target `x` (range checks,
then division by the step and multiplication back). For a positive step and
`0 ≤ lowLimit ≤ topLimit`, `F (F x) = F x` for every target, in particular for
every target outside the band; and after the update has written `F x`, a second
update toward the same target (whatever delta leads to it, zero included)
leaves the same frequency. -/
theorem C12_band_clamp_idempotence (cfg : Config) (st : State)
    (hs : 0 < st.lclIncr) (hlow : 0 ≤ st.band.lowLimit)
    (hlt : st.band.lowLimit ≤ st.band.topLimit) (ha : st.afstp ≠ 0) :
    writtenFrequency st.band st.lclIncr
        (writtenFrequency st.band st.lclIncr (st.band.vfoA + st.afstp))
      = writtenFrequency st.band st.lclIncr (st.band.vfoA + st.afstp) ∧
    ∃ st1, updateFrequency cfg st = some st1 ∧
      st1.band.vfoA = writtenFrequency st.band st.lclIncr (st.band.vfoA + st.afstp) ∧
      (∀ a2 : Int, st1.band.vfoA + a2 = st.band.vfoA + st.afstp →
        ∃ st2, updateFrequency cfg { st1 with afstp := a2 } = some st2 ∧
          st2.band.vfoA = st1.band.vfoA) := by
  have hs0 : st.lclIncr ≠ 0 := by omega
  refine ⟨writtenFrequency_idem st.band _ hs hlow hlt, ?_⟩
  obtain ⟨st1, h1, hv, hlo, hto, hl, -⟩ := updateFrequency_writes cfg st ha hs0
  refine ⟨st1, h1, hv, ?_⟩
  intro a2 htarget
  by_cases h0 : a2 = 0
  · exact ⟨_, updateFrequency_skip cfg { st1 with afstp := a2 } h0, rfl⟩
  · obtain ⟨st2, h2, hv2, -, -, -, -⟩ :=
      updateFrequency_writes cfg { st1 with afstp := a2 } h0
        (by show st1.lclIncr ≠ 0; rw [hl]; exact hs0)
    refine ⟨st2, h2, ?_⟩
    rw [hv2]
    show writtenFrequency st1.band st1.lclIncr (st1.band.vfoA + a2) = st1.band.vfoA
    rw [htarget, hl, writtenFrequency_limits st.band st1.band _ _ hlo hto, hv]

/-- C12 at a target below the band: 5351000 against the lower limit 5351500
with step 1000. -/
theorem C12_band_clamp_idempotence_witness :
    writtenFrequency restState.band 1000 (writtenFrequency restState.band 1000 (5352000 + -1000))
      = writtenFrequency restState.band 1000 (5352000 + -1000) ∧
    ∃ st1, updateFrequency plainConfig { restState with afstp := -1000 } = some st1 ∧
      st1.band.vfoA = writtenFrequency restState.band 1000 (5352000 + -1000) ∧
      (∀ a2 : Int, st1.band.vfoA + a2 = 5352000 + -1000 →
        ∃ st2, updateFrequency plainConfig { st1 with afstp := a2 } = some st2 ∧
          st2.band.vfoA = st1.band.vfoA) :=
  C12_band_clamp_idempotence plainConfig { restState with afstp := -1000 }
    (by decide) (by decide) (by decide) (by decide)

/-! ## C13: the idle tick -/

theorem clearPulse_eq (st : State) : clearPulse st = { st with freqPulse := false } := by
  unfold clearPulse
  by_cases h : st.freqPulse = true
  · rw [if_pos h]
  · rw [if_neg h]
    have h2 : st.freqPulse = false := by simpa using h
    cases st
    simp only [] at h2
    subst h2
    rfl

theorem tdiv_eq_zero_of_abs_lt {c d : Int} (h : |c| < d) : c.tdiv d = 0 := by
  rcases le_total 0 c with hc | hc
  · rw [abs_of_nonneg hc] at h
    exact Int.tdiv_eq_zero_of_lt hc h
  · rw [abs_of_nonpos hc] at h
    have h2 : (-c).tdiv d = 0 := Int.tdiv_eq_zero_of_lt (by omega) h
    rw [Int.neg_tdiv] at h2
    omega

/-- C13. From a state with `afstp == 0`, a tick that finds less than one whole
pulse in the counter (`|freqCount| < ENCDR_FCTR`) returns and changes nothing
but `L` (decay), `freqPulse` (cleared) and the working variable `count` (set
to 0 on line 96): `bandData[activeBand].vfoA`, `changed.Disp`, `clarCount`,
`freqCount` and the value last handed to `CAT.SetFA` are unchanged, and `afstp`
is still 0. -/
theorem C13_idle_tick_keeps_channel (cfg : Config) (st : State)
    (hlo : -32768 ≤ st.freqCount) (hhi : st.freqCount ≤ 32767)
    (hidle : |st.freqCount| < cfg.ENCDR_FCTR) (ha : st.afstp = 0) :
    ∃ st1, tick cfg st = some st1 ∧
      st1 = { st with freqPulse := false, count := 0,
                      L := if st.L - cfg.Rdec < 0 then 0 else st.L - cfg.Rdec } ∧
      st1.band.vfoA = st.band.vfoA ∧ st1.changedDisp = st.changedDisp ∧
      st1.clarCount = st.clarCount ∧ st1.freqCount = st.freqCount ∧
      st1.catFA = st.catFA ∧ st1.afstp = 0 := by
  have hd0 : cfg.ENCDR_FCTR ≠ 0 := by
    have := abs_nonneg st.freqCount
    omega
  have hq : st.freqCount.tdiv cfg.ENCDR_FCTR = 0 := tdiv_eq_zero_of_abs_lt hidle
  have hrem : st.freqCount.tmod cfg.ENCDR_FCTR = st.freqCount := by
    have h := Int.tmod_add_tdiv st.freqCount cfg.ENCDR_FCTR
    rw [hq] at h
    simpa using h
  have htick : tick cfg st = some
      { st with
          freqPulse := false
          count := 0
          L := if st.L - cfg.Rdec < 0 then 0 else st.L - cfg.Rdec } := by
    unfold tick
    rw [accelerationEngine_eq cfg st hd0, accelerate_idle cfg _ hq, Option.some_bind,
      updateFrequency_skip cfg _ (by simpa [clearPulse_afstp] using ha), clearPulse_eq]
    simp [hq, hrem, toInt16_of_range hlo hhi]
  exact ⟨_, htick, rfl, rfl, rfl, rfl, rfl, rfl, ha⟩

/-- C13 at a counter of 3 with a pulse divisor of 4. -/
theorem C13_idle_tick_keeps_channel_witness :
    ∃ st1, tick (sourceConfig 4 0 1 false (1 / 2) 1 100)
        { restState with freqCount := 3, freqPulse := true, L := 5 } = some st1 ∧
      st1 = { ({ restState with freqCount := 3, freqPulse := true, L := 5 } : State) with
        freqPulse := false, count := 0,
        L := if (5 : ℚ) - 1 < 0 then 0 else 5 - 1 } ∧
      st1.band.vfoA = 5352000 ∧ st1.changedDisp = false ∧
      st1.clarCount = 0 ∧ st1.freqCount = 3 ∧ st1.catFA = 0 ∧ st1.afstp = 0 :=
  C13_idle_tick_keeps_channel (sourceConfig 4 0 1 false (1 / 2) 1 100)
    { restState with freqCount := 3, freqPulse := true, L := 5 }
    (by decide) (by decide) (by decide) rfl

/-! ## C14 and C16: the increment without acceleration -/

theorem increment_plain (cfg : Config) (s n : Int) (L : ℚ)
    (h : cfg.ACCELERATE = false ∨ n < cfg.V_TH) :
    increment cfg s n L = (L, ((s * n : Int) : ℚ)) := by
  unfold increment
  have hn : ¬ (cfg.ACCELERATE = true ∧ n ≥ cfg.V_TH) := by
    rintro ⟨h1, h2⟩
    rcases h with h | h
    · rw [h1] at h
      exact absurd h (by decide)
    · omega
  rw [if_neg hn]

/-- C14, evaluated on the code. With `ACCELERATE` false, three pulses and a
step of 10, line 111 sets `incrFactor = 10 * 3 = 30` and line 128 multiplies
by the count once more: the emitted delta is 90, not `10 * 3 = 30`. The delta
is `s * n * n`, not a linear function of the pulse count. -/
theorem C14_unaccelerated_delta_is_quadratic :
    (accelerationEngine { plainConfig with ACCELERATE := false }
        { restState with freqCount := 3, lclIncr := 10 }).map
      (fun s => (s.count, s.incrFactor, s.afstp)) = some (3, 30, 90) ∧
    (90 : Int) ≠ 10 * 3 := by
  refine ⟨?_, by decide⟩
  simp [accelerationEngine, drainCounter, readCount, keepRemainder, clearPulse, accelerate,
    plainConfig, sourceConfig, restState, toInt16, direction, increment, truncToInt]
  norm_num [Int.floor_eq_iff]
  decide

/-- C16. When acceleration is disabled, or enabled with a count magnitude
`n < V_TH`, for every non-zero reduced count and positive step `s` the engine
returns with `incrFactor = s * n`; the raw delta is `n * (s * n)`, division by
the step and multiplication back leave it unchanged, the emitted delta is
`direction * (s * n * n)`, and `L` is not increased (it is only limited to
`MaxL` by line 133). -/
theorem C16_unaccelerated_delta_formula (cfg : Config) (st : State)
    (hd : cfg.ENCDR_FCTR ≠ 0) (hc : st.freqCount.tdiv cfg.ENCDR_FCTR ≠ 0)
    (hs : 0 < st.lclIncr)
    (hmode : cfg.ACCELERATE = false ∨ |st.freqCount.tdiv cfg.ENCDR_FCTR| < cfg.V_TH) :
    ∃ st1, accelerationEngine cfg st = some st1 ∧
      st1.count = |st.freqCount.tdiv cfg.ENCDR_FCTR| ∧
      st1.incrFactor = ((st.lclIncr * |st.freqCount.tdiv cfg.ENCDR_FCTR| : Int) : ℚ) ∧
      truncToInt ((st1.count : ℚ) * st1.incrFactor)
        = |st.freqCount.tdiv cfg.ENCDR_FCTR| *
            (st.lclIncr * |st.freqCount.tdiv cfg.ENCDR_FCTR|) ∧
      st1.afstp = direction cfg (st.freqCount.tdiv cfg.ENCDR_FCTR) *
        (st.lclIncr * |st.freqCount.tdiv cfg.ENCDR_FCTR|
          * |st.freqCount.tdiv cfg.ENCDR_FCTR|) ∧
      st1.L = (if st.L > cfg.MaxL then cfg.MaxL else st.L) ∧ st1.L ≤ st.L := by
  have hs0 : st.lclIncr ≠ 0 := by omega
  obtain ⟨st1, h1, hcount, -, hincr, hafstp, hL, -, -⟩ :=
    accelerationEngine_active cfg st hd hc hs0
  rw [increment_plain cfg _ _ _ hmode] at hincr hafstp hL
  simp only [] at hafstp hL
  rw [← Int.cast_mul, truncToInt_intCast] at hafstp
  have hq : (|st.freqCount.tdiv cfg.ENCDR_FCTR| *
      (st.lclIncr * |st.freqCount.tdiv cfg.ENCDR_FCTR|)).tdiv st.lclIncr * st.lclIncr
      = st.lclIncr * |st.freqCount.tdiv cfg.ENCDR_FCTR|
          * |st.freqCount.tdiv cfg.ENCDR_FCTR| := by
    rw [Int.tdiv_mul_cancel
      (Dvd.intro (|st.freqCount.tdiv cfg.ENCDR_FCTR| * |st.freqCount.tdiv cfg.ENCDR_FCTR|)
        (by ring))]
    ring
  refine ⟨st1, h1, hcount, hincr, ?_, ?_, hL, ?_⟩
  · rw [hcount, hincr, ← Int.cast_mul, truncToInt_intCast]
  · rw [hafstp, mul_assoc, hq]
  · rw [hL]
    split
    · exact le_of_lt (by assumption)
    · exact le_refl _

/-- C16 at three pulses with acceleration switched off and a step of 10: the
increment is 30 and the delta 90. -/
theorem C16_unaccelerated_delta_formula_witness :
    ∃ st1, accelerationEngine { plainConfig with ACCELERATE := false }
        { restState with freqCount := 3, lclIncr := 10 } = some st1 ∧
      st1.count = 3 ∧ st1.incrFactor = 30 ∧
      truncToInt ((st1.count : ℚ) * st1.incrFactor) = 90 ∧ st1.afstp = 90 ∧
      st1.L = 0 ∧ st1.L ≤ 0 := by
  obtain ⟨st1, h1, h2, h3, h4, h5, h6, h7⟩ :=
    C16_unaccelerated_delta_formula { plainConfig with ACCELERATE := false }
      { restState with freqCount := 3, lclIncr := 10 }
      (by decide) (by decide) (by decide) (Or.inl rfl)
  have e1 : |({ restState with freqCount := 3, lclIncr := 10 } : State).freqCount.tdiv
      ({ plainConfig with ACCELERATE := false } : Config).ENCDR_FCTR| = 3 := by decide
  have e2 : ({ restState with freqCount := 3, lclIncr := 10 } : State).lclIncr = 10 := rfl
  have e3 : ({ restState with freqCount := 3, lclIncr := 10 } : State).L = 0 := rfl
  have e4 : ({ plainConfig with ACCELERATE := false } : Config).MaxL = 100 := rfl
  rw [e1] at h2
  rw [e1, e2] at h3 h4
  rw [e3, e4] at h6
  rw [e3] at h7
  refine ⟨st1, h1, h2, ?_, ?_, ?_, ?_, h7⟩
  · rw [h3]
    norm_num
  · rw [h4]
    decide
  · rw [h5]
    decide
  · rw [h6]
    norm_num

/-! ## C15: an interrupt inside the drain -/

/-- C15, refuted at a concrete input. With a pulse divisor of 1, the counter at
0 and no transmit lock, a `Positive` pulse that arrives between line 96 and
line 97 is lost: afterwards `count = 0` and `freqCount = 0`, so
`count * 1 + freqCount = 0`, not `0 + 1`. -/
theorem C15_pulse_lost_inside_drain :
    ¬ (plainConfig.PTT_LINE ≠ 0 ∧ restState.xmitStatus ≠ 0) ∧
    (drainPreempted plainConfig Direction.Positive restState).map
      (fun s => (s.count, s.freqCount, s.count * plainConfig.ENCDR_FCTR + s.freqCount))
      = some (0, 0, 0) ∧
    restState.freqCount + Direction.Positive.value = 1 := by
  decide

/-- C15 as amended. The excerpt does not exclude the interrupt around lines 96
and 97. When `FrequencyISR` runs with a `Positive` direction between them (no
transmit lock, divisor `d ≥ 1`, counter `c` below 32767), the drain returns with
`count = c / d` and `freqCount = (c + 1) % d`; hence
`count * d + freqCount = c + 1` holds exactly when `c + 1` and `c` have the same
quotient by `d`. -/
theorem C15_preempted_drain (cfg : Config) (st : State)
    (hd : 1 ≤ cfg.ENCDR_FCTR) (hlo : -32768 ≤ st.freqCount) (hhi : st.freqCount < 32767)
    (hl : ¬ (cfg.PTT_LINE ≠ 0 ∧ st.xmitStatus ≠ 0)) :
    ∃ st1, drainPreempted cfg Direction.Positive st = some st1 ∧
      st1.count = st.freqCount.tdiv cfg.ENCDR_FCTR ∧
      st1.freqCount = (st.freqCount + 1).tmod cfg.ENCDR_FCTR ∧
      st1.freqPulse = true ∧
      (st1.count * cfg.ENCDR_FCTR + st1.freqCount = st.freqCount + 1 ↔
        (st.freqCount + 1).tdiv cfg.ENCDR_FCTR = st.freqCount.tdiv cfg.ENCDR_FCTR) := by
  have hd0 : cfg.ENCDR_FCTR ≠ 0 := by omega
  have hisr : FrequencyISR cfg Direction.Positive
      { st with count := st.freqCount.tdiv cfg.ENCDR_FCTR } =
      { st with count := st.freqCount.tdiv cfg.ENCDR_FCTR, freqPulse := true,
                freqCount := st.freqCount + 1 } := by
    rw [FrequencyISR_unlocked cfg Direction.Positive
      { st with count := st.freqCount.tdiv cfg.ENCDR_FCTR } hl]
    have h1 : toUInt8 Direction.Positive.value = 1 := by decide
    rw [h1, if_neg (by decide)]
    show ({ st with count := _, freqPulse := true, freqCount := toInt16 (st.freqCount + 1) }
      : State) = _
    rw [toInt16_of_range (by omega) (by omega)]
  have hw : toInt16 ((st.freqCount + 1).tmod cfg.ENCDR_FCTR)
      = (st.freqCount + 1).tmod cfg.ENCDR_FCTR :=
    tmod_int16 (by omega) (by omega) (by omega)
  rw [drainPreempted_eq cfg _ st hd0, hisr]
  refine ⟨_, rfl, rfl, hw, rfl, ?_⟩
  show st.freqCount.tdiv cfg.ENCDR_FCTR * cfg.ENCDR_FCTR
      + toInt16 ((st.freqCount + 1).tmod cfg.ENCDR_FCTR) = st.freqCount + 1 ↔ _
  rw [hw]
  have hsplit := Int.tdiv_add_tmod' (st.freqCount + 1) cfg.ENCDR_FCTR
  constructor
  · intro h
    have h2 : (st.freqCount + 1).tdiv cfg.ENCDR_FCTR * cfg.ENCDR_FCTR
        = st.freqCount.tdiv cfg.ENCDR_FCTR * cfg.ENCDR_FCTR := by omega
    exact mul_right_cancel₀ hd0 h2
  · intro h
    rw [← h]
    exact hsplit

/-- C15 as amended, at a counter of 2 with a divisor of 4: the pulse stays in
the remainder, since `3 / 4 = 2 / 4`. -/
theorem C15_preempted_drain_witness :
    ∃ st1, drainPreempted (sourceConfig 4 0 1 false (1 / 2) 1 100) Direction.Positive
        { restState with freqCount := 2 } = some st1 ∧
      st1.count = Int.tdiv 2 4 ∧ st1.freqCount = Int.tmod (2 + 1) 4 ∧
      st1.freqPulse = true ∧
      (st1.count * 4 + st1.freqCount = 2 + 1 ↔ Int.tdiv (2 + 1) 4 = Int.tdiv 2 4) :=
  C15_preempted_drain (sourceConfig 4 0 1 false (1 / 2) 1 100)
    { restState with freqCount := 2 } (by decide) (by decide) (by decide) (by decide)

/-! ## C17: the new-pulse flag -/

theorem accelerate_freqPulse {cfg : Config} {st st1 : State}
    (h : accelerate cfg st = some st1) : st1.freqPulse = st.freqPulse := by
  by_cases hc : st.count = 0
  · rw [accelerate_idle cfg st hc] at h
    cases h
    rfl
  · by_cases hs : st.lclIncr = 0
    · simp [accelerate, hc, hs] at h
    · rw [accelerate_active cfg st hc hs] at h
      cases h
      rfl

theorem updateFrequency_freqPulse {cfg : Config} {st st1 : State}
    (h : updateFrequency cfg st = some st1) : st1.freqPulse = st.freqPulse := by
  by_cases ha : st.afstp = 0
  · rw [updateFrequency_skip cfg st ha] at h
    cases h
    rfl
  · by_cases hs : st.lclIncr = 0
    · simp [updateFrequency, ha, hs] at h
    · rw [updateFrequency_active cfg st ha hs] at h
      cases h
      rfl

theorem clearPulse_set (st : State) (b : Bool) :
    clearPulse { st with freqPulse := b } = clearPulse st := by
  rw [clearPulse_eq, clearPulse_eq]

/-- C17. Two states that differ only in `freqPulse` go through the same tick:
the engine returns the same state for both (same `count`, same remainder in
`freqCount`, same `L`, same delta `afstp`), the tick returns the same state for
both (same channel frequency), and `freqPulse` is false afterwards. -/
theorem C17_new_pulse_flag_does_not_gate (cfg : Config) (st : State) (b : Bool)
    (hd : cfg.ENCDR_FCTR ≠ 0) (hs : st.lclIncr ≠ 0) :
    ∃ e1 st1, accelerationEngine cfg st = some e1 ∧
      accelerationEngine cfg { st with freqPulse := b } = some e1 ∧
      tick cfg st = some st1 ∧ tick cfg { st with freqPulse := b } = some st1 ∧
      e1.freqPulse = false ∧ st1.freqPulse = false := by
  have heng : accelerationEngine cfg { st with freqPulse := b } = accelerationEngine cfg st := by
    unfold accelerationEngine
    rw [clearPulse_set]
  have htick : tick cfg { st with freqPulse := b } = tick cfg st := by
    unfold tick
    rw [heng]
  obtain ⟨st1, h1⟩ := tick_isSome cfg st hd hs
  have h1a := h1
  unfold tick at h1a
  simp only [Option.bind_eq_some] at h1a
  obtain ⟨e1, he, hu⟩ := h1a
  have hep : e1.freqPulse = false := by
    rw [accelerationEngine_eq cfg st hd] at he
    rw [accelerate_freqPulse he, clearPulse_eq]
  refine ⟨e1, st1, he, by rw [heng, he], h1, by rw [htick, h1], hep, ?_⟩
  rw [updateFrequency_freqPulse hu, hep]

/-- C17 at one pulse, with the flag set and with the flag clear. -/
theorem C17_new_pulse_flag_does_not_gate_witness :
    ∃ e1 st1, accelerationEngine plainConfig { restState with freqCount := 1 } = some e1 ∧
      accelerationEngine plainConfig
        { ({ restState with freqCount := 1 } : State) with freqPulse := true } = some e1 ∧
      tick plainConfig { restState with freqCount := 1 } = some st1 ∧
      tick plainConfig
        { ({ restState with freqCount := 1 } : State) with freqPulse := true } = some st1 ∧
      e1.freqPulse = false ∧ st1.freqPulse = false :=
  C17_new_pulse_flag_does_not_gate plainConfig { restState with freqCount := 1 } true
    (by decide) (by decide)

/-! ## C18: tuning inside the band -/

/-- C18. For a positive step `s`, from a state with no pending delta whose
stored frequency is a multiple of `s`: when the engine emits a non-zero delta
and `vfoA + delta` lies within the band limits, the tick returns and the new
stored frequency is exactly `vfoA + delta`. -/
theorem C18_in_range_tuning_exact (cfg : Config) (st e1 : State)
    (hd : cfg.ENCDR_FCTR ≠ 0) (hs : 0 < st.lclIncr) (ha0 : st.afstp = 0)
    (hmul : st.lclIncr ∣ st.band.vfoA)
    (he : accelerationEngine cfg st = some e1) (hne : e1.afstp ≠ 0)
    (hlo : st.band.lowLimit ≤ st.band.vfoA + e1.afstp)
    (hhi : st.band.vfoA + e1.afstp ≤ st.band.topLimit) :
    ∃ st1, tick cfg st = some st1 ∧ st1.band.vfoA = st.band.vfoA + e1.afstp ∧
      st1.catFA = st.band.vfoA + e1.afstp := by
  have hs0 : st.lclIncr ≠ 0 := by omega
  have hc : st.freqCount.tdiv cfg.ENCDR_FCTR ≠ 0 := by
    intro hc0
    rw [accelerationEngine_eq cfg st hd, accelerate_idle cfg _ hc0] at he
    cases he
    exact hne (by simpa [clearPulse_afstp] using ha0)
  obtain ⟨e2, he2, -, -, -, hafstp, -, hl, hb⟩ :=
    accelerationEngine_active cfg st hd hc hs0
  rw [he] at he2
  cases he2
  have hdvd : st.lclIncr ∣ e1.afstp := by
    rw [hafstp]
    exact Dvd.intro_left _ rfl
  have hx : (st.band.vfoA + e1.afstp).tdiv st.lclIncr * st.lclIncr
      = st.band.vfoA + e1.afstp := Int.tdiv_mul_cancel (dvd_add hmul hdvd)
  have hupd := updateFrequency_active cfg e1 hne (by rw [hl]; exact hs0)
  have hval : (rangeCheck e1.band (e1.band.vfoA + e1.afstp)).tdiv e1.lclIncr * e1.lclIncr
      = st.band.vfoA + e1.afstp := by
    rw [hl, hb, rangeCheck_eq_clampSpec, clampSpec_of_mem hlo hhi, hx]
  refine ⟨_, by unfold tick; rw [he, Option.some_bind, hupd], ?_, ?_⟩
  · exact hval
  · exact hval

/-- C18 at one clockwise pulse from 5352000 with step 1000: the engine emits
1000 and the tick stores 5353000. -/
theorem C18_in_range_tuning_exact_witness :
    ∃ st1, tick plainConfig { restState with freqCount := 1 } = some st1 ∧
      st1.band.vfoA = 5352000 + 1000 ∧ st1.catFA = 5352000 + 1000 :=
  C18_in_range_tuning_exact plainConfig { restState with freqCount := 1 }
    { restState with count := 1, freqDir := 1, incrFactor := 1000, afstp := 1000 }
    (by decide) (by decide) rfl ⟨5352, by decide⟩
    (by
      simp [accelerationEngine, drainCounter, readCount, keepRemainder, clearPulse,
        accelerate, plainConfig, sourceConfig, restState, toInt16, direction, increment,
        truncToInt])
    (by decide) (by decide) (by decide)

/-! ## C19: the bounds of the written frequency -/

/-- C19. For a positive step `s`, `0 ≤ lowLimit ≤ topLimit` and a non-zero
delta, the update returns and the frequency `f` it writes satisfies
`lowLimit - s < f ≤ topLimit`; when `lowLimit` is a multiple of `s`, also
`lowLimit ≤ f`. -/
theorem C19_written_frequency_bounds (cfg : Config) (st : State)
    (hs : 0 < st.lclIncr) (hlow : 0 ≤ st.band.lowLimit)
    (hlt : st.band.lowLimit ≤ st.band.topLimit) (ha : st.afstp ≠ 0) :
    ∃ st1, updateFrequency cfg st = some st1 ∧
      st.band.lowLimit - st.lclIncr < st1.band.vfoA ∧ st1.band.vfoA ≤ st.band.topLimit ∧
      (st.lclIncr ∣ st.band.lowLimit → st.band.lowLimit ≤ st1.band.vfoA) := by
  obtain ⟨st1, h1, hv, -, -, -, -⟩ := updateFrequency_writes cfg st ha (by omega)
  obtain ⟨hy, hyle, hylt⟩ :=
    writtenFrequency_floor st.band (st.band.vfoA + st.afstp) hs hlow hlt
  have hb := clampSpec_bounds (st.band.vfoA + st.afstp) hlt
  refine ⟨st1, h1, by rw [hv]; omega, by rw [hv]; omega, ?_⟩
  rintro ⟨k, hk⟩
  rw [hv, hy]
  have h2 : st.band.lowLimit / st.lclIncr ≤
      clampSpec (st.band.vfoA + st.afstp) st.band.lowLimit st.band.topLimit / st.lclIncr :=
    Int.ediv_le_ediv hs hb.1
  have h3 : st.band.lowLimit / st.lclIncr * st.lclIncr = st.band.lowLimit :=
    Int.ediv_mul_cancel ⟨k, hk⟩
  have h4 := Int.mul_le_mul_of_nonneg_right h2 (le_of_lt hs)
  omega

/-- C19 at the band edge off the grid: the written 5351000 lies above
`5351500 - 1000` and not above the upper limit. -/
theorem C19_written_frequency_bounds_witness :
    ∃ st1, updateFrequency plainConfig { restState with afstp := -1000 } = some st1 ∧
      (5351500 : Int) - 1000 < st1.band.vfoA ∧ st1.band.vfoA ≤ 5366500 ∧
      ((1000 : Int) ∣ 5351500 → (5351500 : Int) ≤ st1.band.vfoA) :=
  C19_written_frequency_bounds plainConfig { restState with afstp := -1000 }
    (by decide) (by decide) (by decide) (by decide)

end Accelerator
